import Mathlib

/-!
# Verification of the batch-loading file splitter

Shallow embedding of `src/batch_loading/file_splitter.py`.

Modelling conventions:
* A text file is a `List Line`, its lines in order, where each `Line` is the
  list of UTF-8 bytes of that line (terminator included).  This matches
  Python's line iteration over a file opened in text mode: each yielded line
  is a non-empty string carrying its terminator, and `len(line.encode('utf-8'))`
  is the line's byte size, here `lineSize`.
* The filesystem is a partial map from paths to file contents (`FS`).
* The raw byte view of a file (for the byte-chunking `split_file`) is the
  concatenation of its lines' bytes, `fileBytes`.
* Python's arbitrary-precision `int` arguments are `Int`; byte counts are
  `Nat`, cast to `Int` where the code compares them against an `int`.
-/

/-- A line of a text file, as its UTF-8 bytes (terminator included). -/
abbrev Line := List Nat

/-- `len(line.encode('utf-8'))` — the byte size of one line. -/
def lineSize (l : Line) : Nat := l.length

/-- Total byte size of a list of lines. -/
def sizeSum (ls : List Line) : Nat := (ls.map lineSize).sum

/-- One batch file written by the splitter: its sequence number (`batch_number`
at the time of the write, used in the file name `{table}_batch_{n}.csv`) and
the written content as a list of lines. -/
structure BatchFile where
  seq : Nat
  content : List Line
deriving DecidableEq

/-- Total byte size of a written batch file. -/
def BatchFile.sizeBytes (b : BatchFile) : Nat := sizeSum b.content

/-- Content written on a flush (`file_splitter.py:130-133` and `151-154`):
`if header: batch_file.write(header)` then `writelines(batch_lines)`.
A Python string is truthy iff non-empty, hence the emptiness test. -/
def flushContent (header : Line) (batchLines : List Line) : List Line :=
  if header = [] then batchLines else header :: batchLines

/-- The main loop of `split_file_by_lines` (`file_splitter.py:116-156`),
after the header has been captured from line 0.  State: remaining lines,
`batch_number`, `current_batch_size`, `batch_lines`, and the batch files
flushed so far (`batch_files`).  Before appending a line, if
`current_batch_size + line_size > batch_size_bytes and batch_lines`, the
pending batch is flushed and the counters reset; the line is then appended.
After the loop, a non-empty pending batch is flushed. -/
def splitLoop (target : Int) (header : Line) :
    List Line → Nat → Nat → List Line → List BatchFile → List BatchFile
  | [], bn, _cur, pending, acc =>
      if pending = [] then acc
      else acc ++ [⟨bn, flushContent header pending⟩]
  | line :: rest, bn, cur, pending, acc =>
      if ((cur : Int) + lineSize line > target ∧ pending ≠ []) then
        splitLoop target header rest (bn + 1) (lineSize line) [line]
          (acc ++ [⟨bn, flushContent header pending⟩])
      else
        splitLoop target header rest bn (cur + lineSize line) (pending ++ [line]) acc

/-- The line-aware splitting of one file's lines against a byte target:
`split_file_by_lines` after `batch_size_bytes` has been computed, with the
first line captured as the header (`file_splitter.py:110-158`).  An empty
file runs the loop zero times and produces no batches. -/
def split_lines (target : Int) : List Line → List BatchFile
  | [] => []
  | header :: data => splitLoop target header data 1 0 [] []

/-- A filesystem: path → file content (as lines), `none` when absent. -/
abbrev FS := String → Option (List Line)

/-- Errors surfaced by the splitter.  The only raise in
`split_file_by_lines`/`split_file` is `FileNotFoundError` for a missing
source (`file_splitter.py:100-101`); no other validation exists. -/
inductive SplitError where
  | notFound (path : String)
deriving DecidableEq

/-- Path of batch `n`: `{target_directory}/{table_name}/{table_name}_batch_{n}.csv`. -/
def batchPath (targetDirectory tableName : String) (n : Nat) : String :=
  targetDirectory ++ "/" ++ tableName ++ "/" ++ tableName ++ "_batch_" ++ toString n ++ ".csv"

/-- Record the batch files written by one splitter call into the filesystem. -/
def writeBatches (targetDirectory tableName : String) : FS → List BatchFile → FS
  | fs, [] => fs
  | fs, b :: bs =>
      writeBatches targetDirectory tableName
        (fun p => if p = batchPath targetDirectory tableName b.seq then some b.content else fs p) bs

/-- `FileSplitter.split_file_by_lines` (`file_splitter.py:79-158`): check the
source exists (else raise `FileNotFoundError`), compute
`batch_size_bytes = batch_size_mb * 1024 * 1024`, run the line loop, write the
batch files, and return them.  The missing-source check precedes any write,
so on error the filesystem is unchanged. -/
def split_file_by_lines (fs : FS) (targetDirectory sourceFile : String)
    (batchSizeMb : Int) (tableName : String) :
    FS × Except SplitError (List BatchFile) :=
  match fs sourceFile with
  | none => (fs, Except.error (SplitError.notFound sourceFile))
  | some file =>
      let batches := split_lines (batchSizeMb * 1024 * 1024) file
      (writeBatches targetDirectory tableName fs batches, Except.ok batches)

/-- Filesystem holding one source file `data.csv` with a one-byte header and
two one-byte data lines. -/
def fsSmall : FS := fun p => if p = "data.csv" then some [[104], [97], [98]] else none

/-- Structure of every flushed batch: its content is the header followed by a
non-empty run of data lines, and any batch holding at least two data lines has
accumulated at most `target` data bytes (the flush check fired before the
batch could grow past the target with a second line). -/
def GoodBatch (target : Int) (header : Line) (b : BatchFile) : Prop :=
  ∃ dl, dl ≠ [] ∧ b.content = header :: dl ∧ (2 ≤ dl.length → (sizeSum dl : Int) ≤ target)

/-- Python dict assignment `results[table_name] = value`
(`file_splitter.py:226,233`): update in place when the key exists, otherwise
append at the end — insertion order is preserved. -/
def dictInsert (k : String) (v : List BatchFile) :
    List (String × List BatchFile) → List (String × List BatchFile)
  | [] => [(k, v)]
  | (k', v') :: rest => if k' = k then (k, v) :: rest else (k', v') :: dictInsert k v rest

/-- The loop of `split_multiple_files` (`file_splitter.py:217-233`): for each
config invoke `split_file_by_lines`; on success record the batch list under
the config's table name, on any exception record an empty list; either way
continue with the remaining configs.  The filesystem is threaded through the
calls. -/
def split_multiple_files_loop (targetDirectory : String) :
    FS → List (String × List BatchFile) → List (String × Int × String) →
      FS × List (String × List BatchFile)
  | fs, acc, [] => (fs, acc)
  | fs, acc, (sourceFile, batchSizeMb, tableName) :: rest =>
      let r := split_file_by_lines fs targetDirectory sourceFile batchSizeMb tableName
      let value := match r.2 with
        | Except.ok bs => bs
        | Except.error _ => []
      split_multiple_files_loop targetDirectory r.1 (dictInsert tableName value acc) rest

/-- `split_multiple_files` (`file_splitter.py:200-235`): run the splitter over
every config, collecting results in a dict keyed by table name. -/
def split_multiple_files (fileConfigs : List (String × Int × String))
    (targetDirectory : String) (fs : FS) : FS × List (String × List BatchFile) :=
  split_multiple_files_loop targetDirectory fs [] fileConfigs

/-- The planner result as the spec words it (refinement target for C5): one
entry per config, in config order, holding the config's batch list on success
and an empty list on failure, later configs still processed. -/
def plannerSpec (targetDirectory : String) : FS → List (String × Int × String) →
    List (String × List BatchFile)
  | _, [] => []
  | fs, (sourceFile, batchSizeMb, tableName) :: rest =>
      let r := split_file_by_lines fs targetDirectory sourceFile batchSizeMb tableName
      (tableName, match r.2 with
        | Except.ok bs => bs
        | Except.error _ => []) :: plannerSpec targetDirectory r.1 rest

/-- Filesystem for the planner-resilience scenario: sources `a.csv` and
`c.csv` exist, `b.csv` does not. -/
def fsPlanner : FS := fun p =>
  if p = "a.csv" then some [[104], [97]]
  else if p = "c.csv" then some [[104], [99]]
  else none

/-- Three configs whose second names a missing source. -/
def plannerConfigs : List (String × Int × String) :=
  [("a.csv", 1, "t1"), ("b.csv", 1, "t2"), ("c.csv", 1, "t3")]

/-- The raw byte content of a file: its lines' bytes concatenated. -/
def fileBytes (file : List Line) : List Nat := file.flatten

/-- One `source.read(batch_size_bytes)` on the remaining bytes
(`file_splitter.py:62`): a non-negative count reads up to that many bytes,
a negative count reads everything (Python file-object semantics). -/
def readChunk (n : Int) (l : List Nat) : List Nat :=
  if n < 0 then l else l.take n.toNat

/-- The read/write loop of `split_file` (`file_splitter.py:60-75`): repeatedly
read `batch_size_bytes` bytes and emit them as the next batch file, stopping
at the first empty read.  Returns the chunks in sequence order. -/
def chunksOf (n : Int) (l : List Nat) : List (List Nat) :=
  if h : readChunk n l = [] then []
  else readChunk n l :: chunksOf n (l.drop (readChunk n l).length)
termination_by l.length
decreasing_by
  have h1 : (readChunk n l).length ≤ l.length := by
    unfold readChunk
    split
    · exact Nat.le_refl _
    · rw [List.length_take]
      omega
  have h2 : 0 < (readChunk n l).length := List.length_pos.mpr h
  simp only [List.length_drop]
  omega

/-- `FileSplitter.split_file` (`file_splitter.py:29-77`): raw byte chunking
with no line awareness.  The returned chunks are, in order, the contents of
`{table_name}_batch_{n}.csv` for `n = 1, 2, …`; writes are not modelled for
this variant (no claim depends on them). -/
def split_file (fs : FS) (sourceFile : String) (batchSizeMb : Int)
    (tableName : String) : Except SplitError (List (List Nat)) :=
  match fs sourceFile with
  | none => Except.error (SplitError.notFound sourceFile)
  | some file => Except.ok (chunksOf (batchSizeMb * 1024 * 1024) (fileBytes file))

/- ### Loop invariants of the line splitter -/

/-- Concatenating, over the loop's output, each batch's content minus its
header recovers the flushed-so-far lines, the pending lines, and the
remaining input, in order. -/
lemma splitLoop_tails_flatten (target : Int) (header : Line) (hh : header ≠ []) :
    ∀ (rest : List Line) (bn cur : Nat) (pending : List Line) (acc : List BatchFile),
      ((splitLoop target header rest bn cur pending acc).map fun b => b.content.tail).flatten
        = ((acc.map fun b => b.content.tail).flatten) ++ pending ++ rest := by
  intro rest
  induction rest with
  | nil =>
      intro bn cur pending acc
      by_cases hp : pending = [] <;>
        simp [splitLoop, hp, flushContent, hh]
  | cons line rest ih =>
      intro bn cur pending acc
      by_cases hc : ((cur : Int) + lineSize line > target ∧ pending ≠ [])
      · rw [splitLoop, if_pos hc, ih]
        simp [flushContent, hh]
      · rw [splitLoop, if_neg hc, ih]
        simp

/-- The loop's output extends the accumulator with batches numbered
consecutively from the current `batch_number`. -/
lemma splitLoop_seqs (target : Int) (header : Line) :
    ∀ (rest : List Line) (bn cur : Nat) (pending : List Line) (acc : List BatchFile),
      ∃ k, (splitLoop target header rest bn cur pending acc).map BatchFile.seq
              = acc.map BatchFile.seq ++ List.range' bn k
          ∧ (splitLoop target header rest bn cur pending acc).length = acc.length + k := by
  intro rest
  induction rest with
  | nil =>
      intro bn cur pending acc
      by_cases hp : pending = []
      · exact ⟨0, by simp [splitLoop, hp]⟩
      · exact ⟨1, by simp [splitLoop, hp]⟩
  | cons line rest ih =>
      intro bn cur pending acc
      by_cases hc : ((cur : Int) + lineSize line > target ∧ pending ≠ [])
      · obtain ⟨k, h1, h2⟩ :=
          ih (bn + 1) (lineSize line) [line] (acc ++ [⟨bn, flushContent header pending⟩])
        refine ⟨k + 1, ?_, ?_⟩
        · rw [splitLoop, if_pos hc, h1, List.range'_succ]
          simp
        · rw [splitLoop, if_pos hc, h2]
          simp
          omega
      · obtain ⟨k, h1, h2⟩ := ih bn (cur + lineSize line) (pending ++ [line]) acc
        exact ⟨k, by rw [splitLoop, if_neg hc]; exact h1,
               by rw [splitLoop, if_neg hc]; exact h2⟩

lemma sizeSum_append_single (xs : List Line) (l : Line) :
    sizeSum (xs ++ [l]) = sizeSum xs + lineSize l := by
  simp [sizeSum]

/-- Every batch produced by the loop is a `GoodBatch`, provided the running
count matches the pending lines and the pending batch satisfies the bound. -/
lemma splitLoop_good (target : Int) (header : Line) (hh : header ≠ []) :
    ∀ (rest : List Line) (bn cur : Nat) (pending : List Line) (acc : List BatchFile),
      cur = sizeSum pending →
      (2 ≤ pending.length → (sizeSum pending : Int) ≤ target) →
      (∀ b ∈ acc, GoodBatch target header b) →
      ∀ b ∈ splitLoop target header rest bn cur pending acc, GoodBatch target header b := by
  intro rest
  induction rest with
  | nil =>
      intro bn cur pending acc _hcur hpend hacc b hb
      by_cases hp : pending = []
      · rw [splitLoop, if_pos hp] at hb
        exact hacc b hb
      · rw [splitLoop, if_neg hp] at hb
        rcases List.mem_append.mp hb with h | h
        · exact hacc b h
        · simp only [List.mem_singleton] at h
          subst h
          exact ⟨pending, hp, by simp [flushContent, hh], hpend⟩
  | cons line rest ih =>
      intro bn cur pending acc hcur hpend hacc b hb
      by_cases hc : ((cur : Int) + lineSize line > target ∧ pending ≠ [])
      · rw [splitLoop, if_pos hc] at hb
        refine ih (bn + 1) (lineSize line) [line] _ ?_ ?_ ?_ b hb
        · simp [sizeSum]
        · intro h2
          simp at h2
        · intro b' hb'
          rcases List.mem_append.mp hb' with h | h
          · exact hacc b' h
          · simp only [List.mem_singleton] at h
            subst h
            exact ⟨pending, hc.2, by simp [flushContent, hh], hpend⟩
      · rw [splitLoop, if_neg hc] at hb
        refine ih bn (cur + lineSize line) (pending ++ [line]) acc ?_ ?_ hacc b hb
        · rw [sizeSum_append_single, hcur]
        · intro h2
          rcases hp : pending with _ | ⟨p, ps⟩
          · subst hp
            simp at h2
          · have hple : ¬ ((cur : Int) + lineSize line > target) := by
              intro hgt
              exact hc ⟨hgt, by simp [hp]⟩
            have hcur' : cur = sizeSum (p :: ps) := by rw [hcur, hp]
            rw [sizeSum_append_single, ← hcur']
            push_cast
            omega

/- ### Lemmas about the planner's dict -/

lemma dictInsert_of_not_mem (k : String) (v : List BatchFile)
    (d : List (String × List BatchFile)) (hk : k ∉ d.map Prod.fst) :
    dictInsert k v d = d ++ [(k, v)] := by
  induction d with
  | nil => rfl
  | cons e rest ih =>
      obtain ⟨k', v'⟩ := e
      simp only [List.map_cons, List.mem_cons] at hk
      push_neg at hk
      rw [dictInsert, if_neg (by exact fun h => hk.1 h.symm), ih hk.2]
      simp

lemma split_multiple_files_loop_spec (targetDirectory : String) :
    ∀ (configs : List (String × Int × String)) (fs : FS)
      (acc : List (String × List BatchFile)),
      (∀ t ∈ configs.map (fun c => c.2.2), t ∉ acc.map Prod.fst) →
      (configs.map (fun c => c.2.2)).Nodup →
      (split_multiple_files_loop targetDirectory fs acc configs).2
        = acc ++ plannerSpec targetDirectory fs configs := by
  intro configs
  induction configs with
  | nil =>
      intro fs acc _ _
      simp [split_multiple_files_loop, plannerSpec]
  | cons c rest ih =>
      obtain ⟨src, mb, t⟩ := c
      intro fs acc hdisj hnodup
      rw [List.map_cons, List.nodup_cons] at hnodup
      have ht : t ∉ acc.map Prod.fst := hdisj t (by simp)
      rw [split_multiple_files_loop, plannerSpec]
      rw [dictInsert_of_not_mem _ _ _ ht]
      rw [ih _ _ ?_ hnodup.2]
      · simp
      · intro t' ht'
        simp only [List.map_append, List.map_cons, List.map_nil, List.mem_append,
          List.mem_singleton]
        rintro (h | h)
        · exact hdisj t' (by simp [ht']) h
        · exact hnodup.1 (h ▸ ht')

/- ### Lemmas about raw byte chunking -/

lemma readChunk_length_le (n : Int) (l : List Nat) : (readChunk n l).length ≤ l.length := by
  unfold readChunk
  split
  · exact Nat.le_refl _
  · rw [List.length_take]
    omega

lemma readChunk_append_drop (n : Int) (l : List Nat) :
    readChunk n l ++ l.drop (readChunk n l).length = l := by
  unfold readChunk
  split
  · simp
  · rw [List.length_take]
    rcases Nat.le_total n.toNat l.length with h | h
    · rw [Nat.min_eq_left h, List.take_append_drop]
    · rw [Nat.min_eq_right h, List.take_of_length_le h, List.drop_length, List.append_nil]

lemma readChunk_nil_iff (n : Int) (hn : 0 < n) (l : List Nat) :
    readChunk n l = [] ↔ l = [] := by
  unfold readChunk
  rw [if_neg (by omega)]
  rw [List.take_eq_nil_iff]
  constructor
  · rintro (h | h)
    · omega
    · exact h
  · exact fun h => Or.inr h

lemma chunksOf_flatten (n : Int) (hn : 0 < n) (l : List Nat) :
    (chunksOf n l).flatten = l := by
  suffices h : ∀ (len : Nat), ∀ (l : List Nat), l.length = len →
      (chunksOf n l).flatten = l from h l.length l rfl
  intro len
  induction len using Nat.strong_induction_on with
  | _ len ih =>
    intro l hL
    by_cases h : readChunk n l = []
    · have hl : l = [] := (readChunk_nil_iff n hn l).mp h
      subst hl
      rw [chunksOf]
      simp [h]
    · have hlt : (l.drop (readChunk n l).length).length < len := by
        rw [List.length_drop]
        have h1 := readChunk_length_le n l
        have h2 : 0 < (readChunk n l).length := List.length_pos.mpr h
        omega
      rw [chunksOf, dif_neg h, List.flatten_cons, ih _ hlt _ rfl,
        readChunk_append_drop]

lemma chunksOf_length (n : Int) (hn : 0 < n) (l : List Nat) :
    (chunksOf n l).length = (l.length + n.toNat - 1) / n.toNat := by
  have hN : 0 < n.toNat := by omega
  suffices hs : ∀ (len : Nat), ∀ (l : List Nat), l.length = len →
      (chunksOf n l).length = (l.length + n.toNat - 1) / n.toNat from hs l.length l rfl
  intro len
  induction len using Nat.strong_induction_on with
  | _ len ih =>
    intro l hL
    by_cases h : readChunk n l = []
    · have hl : l = [] := (readChunk_nil_iff n hn l).mp h
      subst hl
      rw [chunksOf, dif_pos h]
      simp only [List.length_nil, Nat.zero_add]
      exact (Nat.div_eq_of_lt (by omega)).symm
    · have hchunk : readChunk n l = l.take n.toNat := by
        unfold readChunk
        rw [if_neg (by omega)]
      have hlpos : 0 < l.length := by
        have := List.length_pos.mpr h
        have := readChunk_length_le n l
        omega
      have hlt : (l.drop (readChunk n l).length).length < len := by
        rw [List.length_drop]
        have h1 := readChunk_length_le n l
        have h2 : 0 < (readChunk n l).length := List.length_pos.mpr h
        omega
      rw [chunksOf, dif_neg h, List.length_cons, ih _ hlt _ rfl, List.length_drop,
        hchunk, List.length_take]
      rcases Nat.le_total n.toNat l.length with hNL | hLN
      · rw [Nat.min_eq_left hNL]
        have h1 : l.length - n.toNat + n.toNat - 1 = l.length - 1 := by omega
        have h2 : l.length + n.toNat - 1 = (l.length - 1) + n.toNat := by omega
        rw [h1, h2, Nat.add_div_right _ hN]
      · rw [Nat.min_eq_right hLN]
        have h1 : l.length - l.length + n.toNat - 1 = n.toNat - 1 := by omega
        rw [h1, Nat.div_eq_of_lt (by omega)]
        exact (Nat.div_eq_of_lt_le (by omega) (by omega)).symm

/- ### Claim theorems -/

/-- C1: round-trip — for a source with at least one data line and a positive
byte target, concatenating the data lines (everything after the first line)
of the produced batch files, taken in sequence-number order (the output list
is numbered `1, 2, …` consecutively, so list order is sequence order), yields
exactly the source's data lines, in order, no line split. -/
theorem split_lines_roundtrip (target : Int) (header : Line) (data : List Line)
    (hpos : 0 < target) (hh : header ≠ []) (hdata : data ≠ []) :
    ((split_lines target (header :: data)).map fun b => b.content.tail).flatten = data
    ∧ (split_lines target (header :: data)).map BatchFile.seq
        = List.range' 1 (split_lines target (header :: data)).length := by
  constructor
  · have h := splitLoop_tails_flatten target header hh data 1 0 [] []
    simpa [split_lines] using h
  · obtain ⟨k, h1, h2⟩ := splitLoop_seqs target header data 1 0 [] []
    simp only [List.map_nil, List.length_nil, List.nil_append, Nat.zero_add] at h1 h2
    rw [split_lines, h1, h2]

/-- Witness for `split_lines_roundtrip` at a concrete input. -/
theorem split_lines_roundtrip_witness :
    ((split_lines 3 [[104], [97], [98]]).map fun b => b.content.tail).flatten = [[97], [98]]
    ∧ (split_lines 3 [[104], [97], [98]]).map BatchFile.seq
        = List.range' 1 (split_lines 3 [[104], [97], [98]]).length :=
  split_lines_roundtrip 3 [104] [[97], [98]] (by decide) (by decide) (by decide)

/-- C2: header fidelity — every batch file produced from a source with at
least one data line starts with the source's first line, byte for byte. -/
theorem split_lines_header_fidelity (target : Int) (header : Line) (data : List Line)
    (hpos : 0 < target) (hh : header ≠ []) (hdata : data ≠ []) :
    ∀ b ∈ split_lines target (header :: data), b.content.head? = some header := by
  intro b hb
  obtain ⟨dl, _, hcontent, _⟩ :=
    splitLoop_good target header hh data 1 0 [] [] (by simp [sizeSum]) (by simp)
      (by simp) b (by simpa [split_lines] using hb)
  simp [hcontent]

/-- Witness for `split_lines_header_fidelity` at a concrete batch. -/
theorem split_lines_header_fidelity_witness :
    (⟨1, [[104], [97]]⟩ : BatchFile).content.head? = some [104] :=
  split_lines_header_fidelity 3 [104] [[97]] (by decide) (by decide) (by decide)
    ⟨1, [[104], [97]]⟩ (by decide)

/-- C3: `split_file_by_lines` follows the flush-before-append rule of
`file_splitter.py:125-144` — a line is appended only after checking whether
the pending batch is non-empty and `current_batch_size + line_size` would
exceed the target, in which case the pending batch is flushed first and the
count reset.  Concrete scenario from the spec: a header plus 5 data lines of
40 encoded bytes each against a 100-byte target yields exactly 3 batch files
with data-line counts `[2, 2, 1]`. -/
theorem split_lines_concrete_scenario :
    (split_lines 100 (List.replicate 6 97 :: List.replicate 5 (List.replicate 40 98))).length = 3
    ∧ (split_lines 100 (List.replicate 6 97 :: List.replicate 5 (List.replicate 40 98))).map
        (fun b => b.content.tail.length) = [2, 2, 1] := by
  constructor <;> rfl

/-- C4 counterexample: a call with batch size `0` and an empty label is not
rejected — `split_file_by_lines` performs no argument validation, so the call
succeeds, flushing each data line into its own batch. -/
theorem split_no_validation_counterexample :
    (split_file_by_lines fsSmall "out" "data.csv" 0 "").2
      = Except.ok [⟨1, [[104], [97]]⟩, ⟨2, [[104], [98]]⟩] := by
  rfl

/-- C4 amended: the splitter never rejects a call for its batch size or label.
For every batch size (zero and negative included) and every label (empty
included), if the source file exists the call returns normally with a list of
batch files; no `InvalidArgumentError` exists in the code. -/
theorem split_accepts_any_batch_size_and_label (fs : FS)
    (targetDirectory sourceFile : String) (batchSizeMb : Int) (tableName : String)
    (file : List Line) (hsrc : fs sourceFile = some file) :
    ((split_file_by_lines fs targetDirectory sourceFile batchSizeMb tableName).2).isOk = true := by
  simp [split_file_by_lines, hsrc, Except.isOk, Except.toBool]

/-- Witness for `split_accepts_any_batch_size_and_label` at a negative batch
size and empty label. -/
theorem split_accepts_any_batch_size_and_label_witness :
    ((split_file_by_lines fsSmall "out" "data.csv" (-3) "").2).isOk = true :=
  split_accepts_any_batch_size_and_label fsSmall "out" "data.csv" (-3) ""
    [[104], [97], [98]] rfl

/-- C5: `split_multiple_files` returns one entry per config, in config order
(for distinct labels), where a config whose splitter call raised maps to an
empty list while all other configs are still processed; the call itself is a
total function and never raises.  In particular, for three configs whose
second names a missing source, labels 1 and 3 map to their batch lists and
label 2 maps to the empty list. -/
theorem split_multiple_files_planner :
    (∀ (fs : FS) (targetDirectory : String) (configs : List (String × Int × String)),
        (configs.map (fun c => c.2.2)).Nodup →
        (split_multiple_files configs targetDirectory fs).2
          = plannerSpec targetDirectory fs configs)
    ∧ (split_multiple_files plannerConfigs "out" fsPlanner).2
        = [("t1", [⟨1, [[104], [97]]⟩]), ("t2", []), ("t3", [⟨1, [[104], [99]]⟩])] := by
  constructor
  · intro fs targetDirectory configs hnodup
    have h := split_multiple_files_loop_spec targetDirectory configs fs [] (by simp) hnodup
    simpa [split_multiple_files] using h
  · rfl

/-- Witness for the quantified half of `split_multiple_files_planner`. -/
theorem split_multiple_files_planner_witness :
    (split_multiple_files plannerConfigs "out" fsPlanner).2
      = plannerSpec "out" fsPlanner plannerConfigs :=
  split_multiple_files_planner.1 fsPlanner "out" plannerConfigs (by decide)

/-- C6: soft size bound — every produced batch file, except possibly one
containing a single oversized data line, has total size at most the target
plus the size of one of its lines (the repeated header for a multi-line
batch — whose data bytes alone never exceed the target — and the data line
itself for a single-line batch). -/
theorem split_lines_size_bound (target : Int) (header : Line) (data : List Line)
    (hpos : 0 < target) (hh : header ≠ []) :
    ∀ b ∈ split_lines target (header :: data),
      ¬ (b.content.tail.length = 1 ∧ (sizeSum b.content.tail : Int) > target) →
      ∃ l ∈ b.content, (b.sizeBytes : Int) ≤ target + lineSize l := by
  intro b hb hnot
  obtain ⟨dl, hdl, hcontent, hbound⟩ :=
    splitLoop_good target header hh data 1 0 [] [] (by simp [sizeSum]) (by simp)
      (by simp) b (by simpa [split_lines] using hb)
  refine ⟨header, by simp [hcontent], ?_⟩
  have hsize : b.sizeBytes = lineSize header + sizeSum dl := by
    simp [BatchFile.sizeBytes, hcontent, sizeSum]
  rcases dl with _ | ⟨l, dl'⟩
  · exact absurd rfl hdl
  rcases dl' with _ | ⟨l2, dl''⟩
  · have hsmall : ¬ ((sizeSum [l] : Int) > target) := by
      intro hgt
      exact hnot ⟨by simp [hcontent], by rw [hcontent]; exact hgt⟩
    rw [hsize]
    push_cast
    simp only [sizeSum, List.map_cons, List.map_nil, List.sum_cons, List.sum_nil] at hsmall ⊢
    push_cast at hsmall
    omega
  · have h2 : (sizeSum (l :: l2 :: dl'') : Int) ≤ target := hbound (by simp)
    rw [hsize]
    push_cast
    push_cast at h2
    omega

/-- Witness for `split_lines_size_bound` at a concrete batch. -/
theorem split_lines_size_bound_witness :
    ∃ l ∈ (⟨1, [[104], [97], [98]]⟩ : BatchFile).content,
      ((⟨1, [[104], [97], [98]]⟩ : BatchFile).sizeBytes : Int) ≤ 5 + lineSize l :=
  split_lines_size_bound 5 [104] [[97], [98]] (by decide) (by decide)
    ⟨1, [[104], [97], [98]]⟩ (by decide) (by decide)

/-- C7: a source whose single data line exceeds a positive target is still
placed whole into one batch: the result is exactly one batch file holding the
header followed by that line, and no error is raised. -/
theorem split_lines_oversized_line (target : Int) (header line : Line)
    (hh : header ≠ []) (hpos : 0 < target) (hbig : (lineSize line : Int) > target) :
    split_lines target [header, line] = [⟨1, [header, line]⟩] := by
  simp [split_lines, splitLoop, flushContent, hh]

/-- Witness for `split_lines_oversized_line` at a concrete input. -/
theorem split_lines_oversized_line_witness :
    split_lines 3 [[104], [97, 98, 99, 100]] = [⟨1, [[104], [97, 98, 99, 100]]⟩] :=
  split_lines_oversized_line 3 [104] [97, 98, 99, 100] (by decide) (by decide) (by decide)

/-- C8: a source consisting of only a header line produces zero batch files:
the call returns an empty list and writes nothing. -/
theorem split_lines_header_only (fs : FS) (targetDirectory sourceFile : String)
    (batchSizeMb : Int) (tableName : String) (header : Line)
    (hpos : 0 < batchSizeMb) (hsrc : fs sourceFile = some [header]) :
    split_file_by_lines fs targetDirectory sourceFile batchSizeMb tableName
      = (fs, Except.ok []) := by
  simp [split_file_by_lines, hsrc, split_lines, splitLoop, writeBatches]

/-- Witness for `split_lines_header_only` at a concrete input. -/
theorem split_lines_header_only_witness :
    split_file_by_lines (fun p => if p = "s.csv" then some [[104]] else none)
        "out" "s.csv" 1 "t"
      = ((fun p => if p = "s.csv" then some [[104]] else none : FS), Except.ok []) :=
  split_lines_header_only _ "out" "s.csv" 1 "t" [104] (by decide) rfl

/-- C9: the splitter raises `NotFoundError` exactly when the source path does
not exist, and in that case nothing has been written: the check at
`file_splitter.py:100-101` precedes the loop, so the filesystem is returned
unchanged. -/
theorem split_by_lines_not_found_iff (fs : FS) (targetDirectory sourceFile : String)
    (batchSizeMb : Int) (tableName : String) :
    ((split_file_by_lines fs targetDirectory sourceFile batchSizeMb tableName).2
        = Except.error (SplitError.notFound sourceFile) ↔ fs sourceFile = none)
    ∧ (fs sourceFile = none →
        (split_file_by_lines fs targetDirectory sourceFile batchSizeMb tableName).1 = fs) := by
  cases h : fs sourceFile <;> simp [split_file_by_lines, h]

/-- Witness for `split_by_lines_not_found_iff` on an empty filesystem. -/
theorem split_by_lines_not_found_iff_witness :
    (split_file_by_lines (fun _ => none) "out" "missing.csv" 1 "t").2
        = Except.error (SplitError.notFound "missing.csv")
    ∧ (split_file_by_lines (fun _ => none) "out" "missing.csv" 1 "t").1
        = (fun _ => none : FS) :=
  ⟨(split_by_lines_not_found_iff (fun _ => none) "out" "missing.csv" 1 "t").1.mpr rfl,
   (split_by_lines_not_found_iff (fun _ => none) "out" "missing.csv" 1 "t").2 rfl⟩

/-- C10: for an existing source and positive `batch_size_mb`, the raw
byte-chunking `split_file` produces exactly
`⌈sourceSizeBytes / (batchSizeMb * 1024 * 1024)⌉` batch files, and their bytes
concatenated in sequence order reproduce the source's bytes exactly (chunk
boundaries need not respect line boundaries). -/
theorem split_file_chunking (m : Nat) (hm : 0 < m) (fs : FS)
    (sourceFile tableName : String) (file : List Line)
    (hsrc : fs sourceFile = some file) :
    split_file fs sourceFile (m : Int) tableName
        = Except.ok (chunksOf ((m : Int) * 1024 * 1024) (fileBytes file))
    ∧ (chunksOf ((m : Int) * 1024 * 1024) (fileBytes file)).flatten = fileBytes file
    ∧ (chunksOf ((m : Int) * 1024 * 1024) (fileBytes file)).length
        = ((fileBytes file).length + m * 1024 * 1024 - 1) / (m * 1024 * 1024) := by
  have hn : (0 : Int) < (m : Int) * 1024 * 1024 := by omega
  refine ⟨by simp [split_file, hsrc], chunksOf_flatten _ hn _, ?_⟩
  have h := chunksOf_length ((m : Int) * 1024 * 1024) hn (fileBytes file)
  have htn : ((m : Int) * 1024 * 1024).toNat = m * 1024 * 1024 := by omega
  rw [h, htn]

/-- Witness for `split_file_chunking` at a concrete input. -/
theorem split_file_chunking_witness :
    split_file (fun p => if p = "s.csv" then some [[104, 10], [97, 10]] else none)
        "s.csv" 1 "t"
        = Except.ok (chunksOf ((1 : Int) * 1024 * 1024) (fileBytes [[104, 10], [97, 10]]))
    ∧ (chunksOf ((1 : Int) * 1024 * 1024) (fileBytes [[104, 10], [97, 10]])).flatten
        = fileBytes [[104, 10], [97, 10]]
    ∧ (chunksOf ((1 : Int) * 1024 * 1024) (fileBytes [[104, 10], [97, 10]])).length
        = ((fileBytes [[104, 10], [97, 10]]).length + 1 * 1024 * 1024 - 1) / (1 * 1024 * 1024) :=
  split_file_chunking 1 (by decide) _ "s.csv" "t" [[104, 10], [97, 10]] rfl
